import Mathlib

/-!
# Verification of `cjktools.resources.tatoeba`

A shallow embedding of the core of `cjktools/resources/tatoeba.py`:

* `TatoebaLinksReader.links` setter — the incremental link-graph builder
  (`linkDict` / `groupDict` / `nodes` mirror the Python locals of the same
  names; Python `dict`s keyed by non-negative integers are modelled as total
  functions into `Option`, Python `set`s of integers as `Finset Nat`).
* `TatoebaSentenceReader.sentences` setter — sentence-file loading.
* `TanakaWord` — equality and repr.
* `TatoebaIndexReader` — `word_re`-based token parsing (`parse_sentence`),
  reading resolution (`adjust_details`) and `jpn_indices` loading.

Fallible Python code (raised exceptions) is modelled with `Except`.
-/

namespace Tatoeba

/-! ## Link graph builder (`TatoebaLinksReader`) -/

/-- The state mutated by the `links` setter loop: Python locals `link_dict`
(sentence id → node id), `group_dict` (node id → set of sentence ids, a
missing key modelled as `∅`) and the `nodes` counter. -/
structure LinkState where
  linkDict : Nat → Option Nat
  groupDict : Nat → Finset Nat
  nodes : Nat

/-- State before any row is read: `link_dict = {}`, `group_dict = {}`,
`nodes = 0`. -/
def initLinkState : LinkState :=
  { linkDict := fun _ => none, groupDict := fun _ => ∅, nodes := 0 }

/-- The filter configuration produced by `_sentence_id_subset` and
`_sentence_ids_filter`: the booleans `_filter_sent` / `_filter_trans` and the
set `_sentence_id_subset` (both booleans are `false` when no subset was
given, making `subset` irrelevant). -/
structure LinksConfig where
  filterSent : Bool
  filterTrans : Bool
  subset : Finset Nat

/-- Configuration with no sentence-id restriction. -/
def noFilter : LinksConfig := ⟨false, false, ∅⟩

/-- The `continue` guard of the row loop: an edge is kept unless
`(_filter_sent ∧ sent_id ∉ subset) ∨ (_filter_trans ∧ trans_id ∉ subset)`. -/
def keepEdge (cfg : LinksConfig) (e : Nat × Nat) : Bool :=
  !((cfg.filterSent && !(decide (e.1 ∈ cfg.subset))) ||
    (cfg.filterTrans && !(decide (e.2 ∈ cfg.subset))))

/-- The body of the row loop after the filter, for one edge
`(sent_id, trans_id)`:

* if `sent_id ∈ link_dict`: `node_id = link_dict[sent_id]`,
  `new_ids = {trans_id}`;
* elif `trans_id ∈ link_dict`: `node_id = link_dict[trans_id]`,
  `new_ids = {sent_id}`;
* else: `node_id = nodes`, `nodes += 1`, `new_ids = {trans_id, sent_id}`;

then `group_dict[node_id] |= new_ids` (with `setdefault` to `∅`) and
`link_dict[k] = node_id` for every `k ∈ new_ids`. -/
def processEdge (st : LinkState) (e : Nat × Nat) : LinkState :=
  match st.linkDict e.1 with
  | some g =>
      { st with
        groupDict := Function.update st.groupDict g (st.groupDict g ∪ {e.2}),
        linkDict := Function.update st.linkDict e.2 (some g) }
  | none =>
    match st.linkDict e.2 with
    | some g =>
        { st with
          groupDict := Function.update st.groupDict g (st.groupDict g ∪ {e.1}),
          linkDict := Function.update st.linkDict e.1 (some g) }
    | none =>
        { linkDict :=
            Function.update (Function.update st.linkDict e.1 (some st.nodes))
              e.2 (some st.nodes),
          groupDict :=
            Function.update st.groupDict st.nodes
              (st.groupDict st.nodes ∪ {e.2, e.1}),
          nodes := st.nodes + 1 }

/-- One iteration of the row loop: filtered edges are dropped (`continue`),
kept edges are processed. -/
def step (cfg : LinksConfig) (st : LinkState) (e : Nat × Nat) : LinkState :=
  if keepEdge cfg e then processEdge st e else st

/-- The whole `links` setter, with the integer parsing of rows (plumbing)
already done: fold the loop body over the edge list. -/
def buildLinks (cfg : LinksConfig) (es : List (Nat × Nat)) : LinkState :=
  es.foldl (step cfg) initLinkState

/-- `TatoebaLinksReader.__getitem__` / `group`: `group_dict[link_dict[key]]`;
a missing `link_dict` key raises `InvalidIDError`. -/
def LinkState.group (st : LinkState) (sid : Nat) : Except String (Finset Nat) :=
  match st.linkDict sid with
  | none => .error "InvalidIDError"
  | some g => .ok (st.groupDict g)

/-- `TatoebaLinksReader.groups`: the list of `group_dict` values (node ids
are allocated consecutively from 0, so the keys are `0, …, nodes - 1`). -/
def LinkState.groupsList (st : LinkState) : List (Finset Nat) :=
  (List.range st.nodes).map st.groupDict

/-- An edge both of whose endpoints are already assigned, to two different
groups (the case the greedy one-pass algorithm does not merge). -/
def splitEdgeB (st : LinkState) (e : Nat × Nat) : Bool :=
  match st.linkDict e.1, st.linkDict e.2 with
  | some g1, some g2 => g1 != g2
  | _, _ => false

/-- The "single contiguous chain" side condition: running the builder from
`st`, no kept edge ever arrives with its endpoints split across two
different already-built groups. -/
def noSplitFromB (cfg : LinksConfig) (st : LinkState) : List (Nat × Nat) → Bool
  | [] => true
  | e :: es =>
      (!(keepEdge cfg e) || !(splitEdgeB st e)) &&
        noSplitFromB cfg (step cfg st e) es

/-- A sentence id occurring in some kept edge of the stream. -/
def seenInB (cfg : LinksConfig) (es : List (Nat × Nat)) (id : Nat) : Bool :=
  es.any (fun e => keepEdge cfg e && (e.1 == id || e.2 == id))

/-- A sentence id occurring in some edge of the stream, kept or not. -/
def mentionedB (es : List (Nat × Nat)) (id : Nat) : Bool :=
  es.any (fun e => e.1 == id || e.2 == id)

/-! ## `TanakaWord` -/

/-- `TanakaWord`: slots `headword`, `reading`, `sense`, `display`,
`example` (the boolean example marker, named `exMark` here because
`example` is a Lean keyword). -/
structure TanakaWord where
  headword : String
  reading : Option String
  sense : Option Nat
  display : Option String
  exMark : Bool
deriving DecidableEq

/-- Python truthiness of an optional string (`if self.reading:`): `None`
and the empty string are falsy. -/
def pyTruthyOptStr : Option String → Bool
  | none => false
  | some s => !(s == "")

/-- Python truthiness of an optional non-negative integer
(`if self.sense:`): `None` and `0` are falsy. -/
def pyTruthyOptNat : Option Nat → Bool
  | none => false
  | some n => !(n == 0)

/-- `TanakaWord.__repr__`: headword, then `(reading)`, `[sense]`,
`{display}` and `~` appended for each truthy field. -/
def TanakaWord.render (w : TanakaWord) : String :=
  let base := w.headword
  let base := if pyTruthyOptStr w.reading
    then base ++ "(" ++ w.reading.getD "" ++ ")" else base
  let base := if pyTruthyOptNat w.sense
    then base ++ "[" ++ toString (w.sense.getD 0) ++ "]" else base
  let base := if pyTruthyOptStr w.display
    then base ++ "\x7b" ++ w.display.getD "" ++ "\x7d" else base
  let base := if w.exMark then base ++ "~" else base
  base

/-- `TanakaWord.resolve_display`: `display` if it is not `None`, else the
headword (a `None` check, not a truthiness check). -/
def TanakaWord.resolve_display (w : TanakaWord) : String :=
  match w.display with
  | some d => d
  | none => w.headword

/-- `TanakaWord.__eq__`: component-wise comparison, with `resolve_display`
compared in place of the raw `display` slot. -/
def TanakaWord.eq (a b : TanakaWord) : Bool :=
  a.headword == b.headword && a.sense == b.sense && a.exMark == b.exMark &&
    a.reading == b.reading && a.resolve_display == b.resolve_display

/-! ## `TatoebaIndexReader`: the `word_re` token grammar -/

/-- The `headword` character class of `word_re`:
`[^\(\[\{\|\~]` — anything but `(`, `[`, `{`, `|`, `~`. -/
def headChar (c : Char) : Bool :=
  !(c == '(' || c == '[' || c == '\x7b' || c == '|' || c == '~')

/-- `int()` on a digit run. -/
def digitsToNat (cs : List Char) : Nat :=
  cs.foldl (fun acc c => acc * 10 + (c.toNat - '0'.toNat)) 0

/-- One optional delimited group of `word_re`, e.g.
`(?:\((?P<reading>[^\)]+)\))?`: an opening delimiter, a non-empty run of
characters other than the closing delimiter, then the closing delimiter.
Returns the group body and the rest, or `none` when the group fails (in
which case the regex engine simply skips the optional group). -/
def matchGroup (openc closec : Char) : List Char → Option (List Char × List Char)
  | [] => none
  | c :: rest =>
      if c == openc then
        let run := rest.takeWhile (fun x => x != closec)
        if run.isEmpty then none
        else
          match rest.drop run.length with
          | c2 :: rest2 => if c2 == closec then some (run, rest2) else none
          | [] => none
      else none

/-- The `(?:\[(?P<sense>[\d]+)\])?` group: brackets around a non-empty
digit run. (If the character after the maximal digit run is not `]`, no
shorter run can be followed by `]` either, so the group fails.) -/
def matchSenseGroup : List Char → Option (List Char × List Char)
  | [] => none
  | c :: rest =>
      if c == '[' then
        let run := rest.takeWhile Char.isDigit
        if run.isEmpty then none
        else
          match rest.drop run.length with
          | c2 :: rest2 => if c2 == ']' then some (run, rest2) else none
          | [] => none
      else none

/-- `word_re.match` on a token: the greedy mandatory headword, then the
optional `reading`, `sense`, `display` and `example` groups in this fixed
order. The final `(?:|\d+)` group is an ordered alternation whose first
branch is empty, so it always matches the empty string and consumes
nothing. `match` is not anchored at the end: the unconsumed suffix is
returned alongside the parsed word. `none` exactly when the headword
matches zero characters. -/
def wordReMatch (cs : List Char) : Option (TanakaWord × List Char) :=
  let hw := cs.takeWhile headChar
  if hw.isEmpty then none
  else
    let rest0 := cs.drop hw.length
    let p1 :=
      match matchGroup '(' ')' rest0 with
      | some (r, rs) => (some (String.mk r), rs)
      | none => ((none : Option String), rest0)
    let p2 :=
      match matchSenseGroup p1.2 with
      | some (s, rs) => (some (digitsToNat s), rs)
      | none => ((none : Option Nat), p1.2)
    let p3 :=
      match matchGroup '\x7b' '\x7d' p2.2 with
      | some (d, rs) => (some (String.mk d), rs)
      | none => ((none : Option String), p2.2)
    let p4 :=
      match p3.2 with
      | c :: rs => if c == '~' then (true, rs) else (false, p3.2)
      | [] => (false, p3.2)
    some (⟨String.mk hw, p1.1, p2.1, p3.1, p4.1⟩, p4.2)

/-- Python `text.split(' ')` (the default `sentence_splitter`), at the
character-list level: split at every single space, keeping empty pieces. -/
def splitChars : List Char → List (List Char)
  | [] => [[]]
  | c :: rest =>
      if c == ' ' then [] :: splitChars rest
      else
        match splitChars rest with
        | t :: ts => (c :: t) :: ts
        | [] => [[c]]

/-- The loop body of `parse_sentence` over the split words: zero-length
words are skipped; a failed `word_re.match` raises `InvalidEntryError`
carrying the offending word and the whole sentence text. -/
def parseWords (text : String) : List (List Char) → Except (String × String) (List TanakaWord)
  | [] => .ok []
  | w :: ws =>
      if w.isEmpty then parseWords text ws
      else
        match wordReMatch w with
        | none => .error (String.mk w, text)
        | some (t, _) => (parseWords text ws).map (fun s => t :: s)

/-- `TatoebaIndexReader.parse_sentence`. -/
def parse_sentence (text : String) : Except (String × String) (List TanakaWord) :=
  parseWords text (splitChars text.data)

/-- Modelled from the spec (§4.1): a token *fully* matches the annotation
grammar when it decomposes into a headword, an optional `(reading)`, an
optional `[sense]`, an optional `{display}`, an optional `~` marker and
ignored trailing digits, in this fixed order with nothing left over. This
is the spec's notion of "no deviation from the fixed field order"; the
source's unanchored `word_re.match` is `wordReMatch`. -/
def specTokenFullMatchB (tok : String) : Bool :=
  let splits := fun (cs : List Char) =>
    (List.range (cs.length + 1)).map (fun i => (cs.take i, cs.drop i))
  let isHeadword := fun (s : List Char) => !s.isEmpty && s.all headChar
  let isOptGroup := fun (openc closec : Char) (s : List Char) =>
    s.isEmpty ||
      (s.head? == some openc && s.getLast? == some closec &&
        !((s.drop 1).dropLast.isEmpty) &&
        (s.drop 1).dropLast.all (fun x => x != closec))
  let isOptSense := fun (s : List Char) =>
    s.isEmpty ||
      (s.head? == some '[' && s.getLast? == some ']' &&
        !((s.drop 1).dropLast.isEmpty) &&
        (s.drop 1).dropLast.all Char.isDigit)
  let isOptExample := fun (s : List Char) => s.isEmpty || s == ['~']
  (splits tok.data).any fun p1 =>
    isHeadword p1.1 &&
    ((splits p1.2).any fun p2 =>
      isOptGroup '(' ')' p2.1 &&
      ((splits p2.2).any fun p3 =>
        isOptSense p3.1 &&
        ((splits p3.2).any fun p4 =>
          isOptGroup '\x7b' '\x7d' p4.1 &&
          ((splits p4.2).any fun p5 =>
            isOptExample p5.1 && p5.2.all Char.isDigit))))

/-- A token whose mandatory headword portion fails to match: the token is
empty or starts with one of `(`, `[`, `{`, `|`, `~`. -/
def headFailsB (w : List Char) : Bool :=
  match w with
  | [] => true
  | c :: _ => !(headChar c)

/-! ## `TatoebaIndexReader`: reading resolution (`adjust_details`) -/

/-- The external Dictionary collaborator: headword → the `readings` list of
its entry, `none` when `word.headword not in self.edict`. -/
def Edict : Type := String → Option (List String)

/-- Python list indexing: non-negative indices from the front, negative
indices from the back (`readings[-1]` is the last reading); an
out-of-range index (IndexError) is modelled as `none`. -/
def pyGet (l : List String) (i : Int) : Option String :=
  if 0 ≤ i then l.get? i.toNat
  else if (-i).toNat ≤ l.length then l.get? (l.length - (-i).toNat)
  else none

/-- The local variable `reading` computed inside the loop of
`adjust_details`: pick `readings[sense - 1]` if `sense` is present and
`sense <= len(readings)` (note: no lower bound, so `sense = 0` indexes
`readings[-1]`), else the single distinct reading when
`len(set(readings)) == 1`, else `None`. -/
def candidateReading (readings : List String) (sense : Option Nat) : Option String :=
  match sense with
  | some s =>
      if s ≤ readings.length then pyGet readings ((s : Int) - 1)
      else if readings.dedup.length = 1 then readings.get? 0
      else none
  | none =>
      if readings.dedup.length = 1 then readings.get? 0
      else none

def adjustWord (edict : Edict) (w : TanakaWord) : TanakaWord :=
  match edict w.headword with
  | none => w
  | some readings =>
    match w.reading with
    | some _ => w
    | none =>
      let reading : Option String := candidateReading readings w.sense
      if reading = some w.headword then w else { w with reading := reading }

/-- `TatoebaIndexReader.adjust_details`: the identity when no `edict` was
supplied, else the per-word adjustment applied to every word. -/
def adjust_details (edict : Option Edict) (sentence : List TanakaWord) :
    List TanakaWord :=
  match edict with
  | none => sentence
  | some d => sentence.map (adjustWord d)

/-! ## `TatoebaIndexReader`: the `jpn_indices` setter -/

/-- The two dictionaries built by the `jpn_indices` setter. -/
structure IndexState where
  sentenceDict : Nat → Option (List TanakaWord)
  linkDict : Nat → Option Nat

def initIndexState : IndexState := ⟨fun _ => none, fun _ => none⟩

/-- The `jpn_indices` setter: for each row `(sent_id, meaning_id, text)`,
record `link_dict[sent_id] = meaning_id`, parse and adjust the annotated
text, and store it in `sentence_dict[sent_id]`. A parse failure
(`InvalidEntryError`) aborts the whole load, leaving no index. The
`subset` argument is the constructor's `sentence_ids` allow-list; the
setter's loop never consults it. -/
def loadJpnIndices (edict : Option Edict) (subset : Option (Finset Nat))
    (rows : List (Nat × Nat × String)) : Except (String × String) IndexState :=
  rows.foldlM
    (fun st row =>
      match parse_sentence row.2.2 with
      | .error e => .error e
      | .ok sentence =>
          .ok { sentenceDict :=
                  Function.update st.sentenceDict row.1
                    (some (adjust_details edict sentence)),
                linkDict := Function.update st.linkDict row.1 (some row.2.1) })
    initIndexState

/-! ## `TatoebaSentenceReader`: the `sentences` setter -/

/-- The exceptions the `sentences` setter can raise: `InvalidFileError`
for a first row with neither 3 nor 6 columns; Python `ValueError` for a
failed tuple unpack, a failed `int()` or a failed date parse;
`StopIteration` escaping from `next()` on an empty file. -/
inductive SentErr : Type
  | invalidFile
  | valueError
  | stopIteration
deriving DecidableEq

/-- The dictionaries built by the `sentences` setter: `language_dict` (a
`defaultdict(set)`), `sentence_dict`, and `detailed_info_dict` (only in
six-column mode). Dates are kept as their validated source strings. -/
structure SentState where
  languageDict : String → Finset Nat
  sentenceDict : Nat → Option String
  detailedInfoDict :
    Option (Nat → Option (Option String × Option String × Option String))

def initSentState (detailed : Bool) : SentState :=
  { languageDict := fun _ => ∅,
    sentenceDict := fun _ => none,
    detailedInfoDict := if detailed then some (fun _ => none) else none }

/-- `int()` on the id column, for the non-negative decimal ids appearing
in sentence files; anything else is a `ValueError`. -/
def pyInt (s : String) : Option Nat :=
  if !s.isEmpty && s.data.all Char.isDigit then some (digitsToNat s.data)
  else none

/-- A shallow shape check standing for
`datetime.strptime(s, '%Y-%m-%d %H:%M:%S')` succeeding (the external
`datetime` collaborator): 19 characters with digits and the fixed
separators in place. -/
def validDatetime (s : String) : Bool :=
  let cs := s.data
  cs.length == 19 &&
    cs.enum.all (fun p =>
      if p.1 == 4 || p.1 == 7 then p.2 == '-'
      else if p.1 == 10 then p.2 == ' '
      else if p.1 == 13 || p.1 == 16 then p.2 == ':'
      else p.2.isDigit)

/-- `TatoebaSentenceReader.parse_date`: `\N` maps to `None`, anything else
must parse as a timestamp. -/
def parse_date (s : String) : Except SentErr (Option String) :=
  if s == "\\N" then .ok none
  else if validDatetime s then .ok (some s)
  else .error .valueError

/-- One iteration of the `sentences` setter's row loop. `filter_row`
always returns `False` in the base class, so no row is skipped by it.
`row[0:3]` is unpacked (ValueError when the row has fewer than 3 columns),
the language filter may `continue`, `int(sent_id)` may raise, the row is
recorded, and in detailed mode `row[3:6]` is unpacked and the dates
parsed. Columns beyond the mode's width are silently ignored. -/
def processSentRow (languages : Option (List String)) (detailed : Bool)
    (st : SentState) (row : List String) : Except SentErr SentState :=
  match row.take 3 with
  | [sentIdStr, lang, text] =>
      let skip := match languages with
        | none => false
        | some ls => !(ls.contains lang)
      if skip then .ok st
      else
        match pyInt sentIdStr with
        | none => .error .valueError
        | some sentId =>
            let st1 : SentState :=
              { st with
                languageDict :=
                  Function.update st.languageDict lang
                    (st.languageDict lang ∪ {sentId}),
                sentenceDict :=
                  Function.update st.sentenceDict sentId (some text) }
            if detailed then
              match (row.drop 3).take 3 with
              | [uname, dAdded, dModified] =>
                  let uname' : Option String :=
                    if uname == "\\N" then none else some uname
                  match parse_date dAdded, parse_date dModified with
                  | .ok da, .ok dm =>
                      .ok { st1 with
                            detailedInfoDict :=
                              st1.detailedInfoDict.map (fun f =>
                                Function.update f sentId (some (uname', da, dm))) }
                  | _, _ => .error .valueError
              | _ => .error .valueError
            else .ok st1
  | _ => .error .valueError

/-- The `sentences` setter: `next()` on the row stream picks the first row,
whose column count (3 or 6, else `InvalidFileError`) selects the mode;
then every row — the first one re-chained in front — goes through the row
loop. -/
def loadSentences (languages : Option (List String)) (rows : List (List String)) :
    Except SentErr SentState :=
  match rows with
  | [] => .error .stopIteration
  | first :: _ =>
      if first.length = 3 then
        rows.foldlM (processSentRow languages false) (initSentState false)
      else if first.length = 6 then
        rows.foldlM (processSentRow languages true) (initSentState true)
      else .error .invalidFile

/-! ### Invariants of the builder state

`InvB` holds for every reachable builder state with no assumption on the
edge stream: an assigned id's node id is in range and the id is a member
of its assigned group; unallocated node ids have empty groups; every group
member is assigned to some group. `InvS` additionally identifies group
membership with the `link_dict` assignment; it is preserved only under the
no-split side condition. `InvCard` says every allocated group has at least
two members; it is preserved only for self-loop-free streams. -/

def InvB (st : LinkState) : Prop :=
  (∀ id g, st.linkDict id = some g → g < st.nodes ∧ id ∈ st.groupDict g) ∧
  (∀ g, st.nodes ≤ g → st.groupDict g = ∅) ∧
  (∀ id g, id ∈ st.groupDict g → st.linkDict id ≠ none)

def InvS (st : LinkState) : Prop :=
  (∀ id g, id ∈ st.groupDict g ↔ st.linkDict id = some g) ∧
  (∀ g, st.nodes ≤ g → st.groupDict g = ∅) ∧
  (∀ id g, st.linkDict id = some g → g < st.nodes)

def InvCard (st : LinkState) : Prop :=
  ∀ g, g < st.nodes → 2 ≤ (st.groupDict g).card

instance {ε α : Type} [DecidableEq ε] [DecidableEq α] : DecidableEq (Except ε α) :=
  fun a b =>
    match a, b with
    | .ok x, .ok y =>
        if h : x = y then .isTrue (by rw [h])
        else .isFalse (by intro hc; cases hc; exact h rfl)
    | .error x, .error y =>
        if h : x = y then .isTrue (by rw [h])
        else .isFalse (by intro hc; cases hc; exact h rfl)
    | .ok _, .error _ => .isFalse (by intro hc; cases hc)
    | .error _, .ok _ => .isFalse (by intro hc; cases hc)

/-! ### Shape lemmas for `processEdge` -/

theorem processEdge_left {st : LinkState} {e : Nat × Nat} {g : Nat}
    (h : st.linkDict e.1 = some g) :
    processEdge st e =
      { st with
        groupDict := Function.update st.groupDict g (st.groupDict g ∪ {e.2}),
        linkDict := Function.update st.linkDict e.2 (some g) } := by
  simp [processEdge, h]

theorem processEdge_right {st : LinkState} {e : Nat × Nat} {g : Nat}
    (h1 : st.linkDict e.1 = none) (h2 : st.linkDict e.2 = some g) :
    processEdge st e =
      { st with
        groupDict := Function.update st.groupDict g (st.groupDict g ∪ {e.1}),
        linkDict := Function.update st.linkDict e.1 (some g) } := by
  simp [processEdge, h1, h2]

theorem processEdge_fresh {st : LinkState} {e : Nat × Nat}
    (h1 : st.linkDict e.1 = none) (h2 : st.linkDict e.2 = none) :
    processEdge st e =
      { linkDict :=
          Function.update (Function.update st.linkDict e.1 (some st.nodes))
            e.2 (some st.nodes),
        groupDict :=
          Function.update st.groupDict st.nodes
            (st.groupDict st.nodes ∪ {e.2, e.1}),
        nodes := st.nodes + 1 } := by
  simp [processEdge, h1, h2]

theorem step_not_kept {cfg : LinksConfig} {st : LinkState} {e : Nat × Nat}
    (h : keepEdge cfg e = false) : step cfg st e = st := by
  simp [step, h]

theorem step_kept {cfg : LinksConfig} {st : LinkState} {e : Nat × Nat}
    (h : keepEdge cfg e = true) : step cfg st e = processEdge st e := by
  simp [step, h]

/-! ### The basic invariant

These properties hold for every reachable builder state, with no assumption
on the edge stream: an assigned id's node id is in range and the id is a
member of its assigned group; unallocated node ids have empty groups; every
group member is assigned to some group. -/

theorem invB_init : InvB initLinkState := by
  refine ⟨?_, ?_, ?_⟩ <;> intro _ _ <;> simp [initLinkState]

theorem update_some_ne_none {f : Nat → Option Nat} {x v id : Nat}
    (h : f id ≠ none ∨ id = x) : Function.update f x (some v) id ≠ none := by
  rcases h with h | h
  · rw [Function.update_apply]
    split
    · simp
    · exact h
  · subst h
    simp

theorem invB_processEdge {st : LinkState} (e : Nat × Nat) (h : InvB st) :
    InvB (processEdge st e) := by
  obtain ⟨h1, h2, h3⟩ := h
  rcases ha : st.linkDict e.1 with _ | ga
  · rcases hb : st.linkDict e.2 with _ | gb
    · -- fresh node
      rw [processEdge_fresh ha hb]
      have hempty : st.groupDict st.nodes = ∅ := h2 _ le_rfl
      refine ⟨?_, ?_, ?_⟩ <;> dsimp only
      · intro id g hg
        rw [Function.update_apply] at hg
        by_cases hid2 : id = e.2
        · rw [if_pos hid2] at hg
          cases hg
          subst hid2
          simp [hempty]
        · rw [if_neg hid2, Function.update_apply] at hg
          by_cases hid1 : id = e.1
          · rw [if_pos hid1] at hg
            cases hg
            subst hid1
            simp [hempty]
          · rw [if_neg hid1] at hg
            obtain ⟨hlt, hmem⟩ := h1 _ _ hg
            refine ⟨Nat.lt_succ_of_lt hlt, ?_⟩
            rw [Function.update_noteq (Nat.ne_of_lt hlt)]
            exact hmem
      · intro g hg
        have hne : g ≠ st.nodes := by omega
        rw [Function.update_noteq hne]
        exact h2 _ (by omega)
      · intro id g hg
        by_cases hgn : g = st.nodes
        · subst hgn
          rw [Function.update_same, hempty] at hg
          simp only [Finset.empty_union, Finset.mem_insert,
            Finset.mem_singleton] at hg
          rcases hg with hg | hg
          · exact update_some_ne_none (Or.inr hg)
          · refine update_some_ne_none (Or.inl ?_)
            exact update_some_ne_none (Or.inr hg)
        · rw [Function.update_noteq hgn] at hg
          refine update_some_ne_none (Or.inl ?_)
          exact update_some_ne_none (Or.inl (h3 _ _ hg))
    · -- e.2 already assigned
      rw [processEdge_right ha hb]
      obtain ⟨hblt, hbmem⟩ := h1 _ _ hb
      refine ⟨?_, ?_, ?_⟩ <;> dsimp only
      · intro id g hg
        rw [Function.update_apply] at hg
        by_cases hid1 : id = e.1
        · rw [if_pos hid1] at hg
          cases hg
          subst hid1
          refine ⟨hblt, ?_⟩
          rw [Function.update_same]
          simp
        · rw [if_neg hid1] at hg
          obtain ⟨hlt, hmem⟩ := h1 _ _ hg
          refine ⟨hlt, ?_⟩
          rw [Function.update_apply]
          split
          · next hgg => subst hgg; simp [hmem]
          · exact hmem
      · intro g hg
        have hne : g ≠ gb := by omega
        rw [Function.update_noteq hne]
        exact h2 _ hg
      · intro id g hg
        by_cases hgg : g = gb
        · subst hgg
          rw [Function.update_same] at hg
          simp only [Finset.mem_union, Finset.mem_singleton] at hg
          rcases hg with hg | hg
          · exact update_some_ne_none (Or.inl (h3 _ _ hg))
          · exact update_some_ne_none (Or.inr hg)
        · rw [Function.update_noteq hgg] at hg
          exact update_some_ne_none (Or.inl (h3 _ _ hg))
  · -- e.1 already assigned
    rw [processEdge_left ha]
    obtain ⟨halt, hamem⟩ := h1 _ _ ha
    refine ⟨?_, ?_, ?_⟩ <;> dsimp only
    · intro id g hg
      rw [Function.update_apply] at hg
      by_cases hid2 : id = e.2
      · rw [if_pos hid2] at hg
        cases hg
        subst hid2
        refine ⟨halt, ?_⟩
        rw [Function.update_same]
        simp
      · rw [if_neg hid2] at hg
        obtain ⟨hlt, hmem⟩ := h1 _ _ hg
        refine ⟨hlt, ?_⟩
        rw [Function.update_apply]
        split
        · next hgg => subst hgg; simp [hmem]
        · exact hmem
    · intro g hg
      have hne : g ≠ ga := by omega
      rw [Function.update_noteq hne]
      exact h2 _ hg
    · intro id g hg
      by_cases hgg : g = ga
      · subst hgg
        rw [Function.update_same] at hg
        simp only [Finset.mem_union, Finset.mem_singleton] at hg
        rcases hg with hg | hg
        · exact update_some_ne_none (Or.inl (h3 _ _ hg))
        · exact update_some_ne_none (Or.inr hg)
      · rw [Function.update_noteq hgg] at hg
        exact update_some_ne_none (Or.inl (h3 _ _ hg))

theorem invB_step {cfg : LinksConfig} {st : LinkState} (e : Nat × Nat)
    (h : InvB st) : InvB (step cfg st e) := by
  cases hk : keepEdge cfg e
  · rwa [step_not_kept hk]
  · rw [step_kept hk]
    exact invB_processEdge e h

theorem invB_foldl {cfg : LinksConfig} :
    ∀ (es : List (Nat × Nat)) (st : LinkState), InvB st →
      InvB (es.foldl (step cfg) st)
  | [], _, h => h
  | _ :: es, _, h => invB_foldl es _ (invB_step _ h)

theorem invB_build (cfg : LinksConfig) (es : List (Nat × Nat)) :
    InvB (buildLinks cfg es) :=
  invB_foldl es _ invB_init

/-! ### The strong invariant

Under the no-split side condition, group membership coincides exactly with
the `link_dict` assignment. -/

theorem invS_init : InvS initLinkState := by
  refine ⟨?_, ?_, ?_⟩ <;> intro _ _ <;> simp [initLinkState]

theorem mem_update_groupDict {f : Nat → Finset Nat} {g' g id : Nat} {s : Finset Nat} :
    (id ∈ Function.update f g' s g) ↔
      ((g = g' ∧ id ∈ s) ∨ (g ≠ g' ∧ id ∈ f g)) := by
  rw [Function.update_apply]
  by_cases hg : g = g'
  · rw [if_pos hg]
    simp [hg]
  · rw [if_neg hg]
    simp [hg]

theorem update_linkDict_some {f : Nat → Option Nat} {x v id g : Nat} :
    (Function.update f x (some v) id = some g) ↔
      ((id = x ∧ v = g) ∨ (id ≠ x ∧ f id = some g)) := by
  rw [Function.update_apply]
  by_cases hid : id = x
  · rw [if_pos hid]
    simp [hid]
  · rw [if_neg hid]
    simp [hid]

theorem invS_processEdge {st : LinkState} (e : Nat × Nat)
    (hsplit : splitEdgeB st e = false) (h : InvS st) :
    InvS (processEdge st e) := by
  obtain ⟨h1, h2, h3⟩ := h
  rcases ha : st.linkDict e.1 with _ | ga
  · rcases hb : st.linkDict e.2 with _ | gb
    · -- fresh node
      rw [processEdge_fresh ha hb]
      have hempty : st.groupDict st.nodes = ∅ := h2 _ le_rfl
      refine ⟨?_, ?_, ?_⟩ <;> dsimp only
      · intro id g
        rw [mem_update_groupDict, update_linkDict_some]
        constructor
        · rintro (⟨hg, hmem⟩ | ⟨hg, hmem⟩)
          · rw [hempty] at hmem
            simp only [Finset.empty_union, Finset.mem_insert,
              Finset.mem_singleton] at hmem
            rcases hmem with hmem | hmem
            · exact Or.inl ⟨hmem, hg.symm⟩
            · by_cases hid2 : id = e.2
              · exact Or.inl ⟨hid2, hg.symm⟩
              · refine Or.inr ⟨hid2, ?_⟩
                rw [update_linkDict_some]
                exact Or.inl ⟨hmem, hg.symm⟩
          · have hl := (h1 id g).mp hmem
            have h12 : id ≠ e.1 := fun hc => by rw [hc, ha] at hl; cases hl
            have h22 : id ≠ e.2 := fun hc => by rw [hc, hb] at hl; cases hl
            refine Or.inr ⟨h22, ?_⟩
            rw [update_linkDict_some]
            exact Or.inr ⟨h12, hl⟩
        · rintro (⟨hid, hg⟩ | ⟨hid, hrest⟩)
          · subst hid
            exact Or.inl ⟨hg.symm, by rw [hempty]; simp⟩
          · rw [update_linkDict_some] at hrest
            rcases hrest with ⟨hid1, hg⟩ | ⟨hid1, hl⟩
            · subst hid1
              exact Or.inl ⟨hg.symm, by rw [hempty]; simp⟩
            · have hlt := h3 _ _ hl
              exact Or.inr ⟨Nat.ne_of_lt hlt, (h1 id g).mpr hl⟩
      · intro g hg
        have hne : g ≠ st.nodes := by omega
        rw [Function.update_noteq hne]
        exact h2 _ (by omega)
      · intro id g hg
        rw [update_linkDict_some] at hg
        rcases hg with ⟨_, hg⟩ | ⟨_, hg⟩
        · omega
        · rw [update_linkDict_some] at hg
          rcases hg with ⟨_, hg⟩ | ⟨_, hg⟩
          · omega
          · exact Nat.lt_succ_of_lt (h3 _ _ hg)
    · -- e.2 already assigned, e.1 not
      rw [processEdge_right ha hb]
      have hblt := h3 _ _ hb
      refine ⟨?_, ?_, ?_⟩ <;> dsimp only
      · intro id g
        rw [mem_update_groupDict, update_linkDict_some]
        constructor
        · rintro (⟨hg, hmem⟩ | ⟨hg, hmem⟩)
          · subst hg
            simp only [Finset.mem_union, Finset.mem_singleton] at hmem
            rcases hmem with hmem | hmem
            · have hl := (h1 id g).mp hmem
              have h11 : id ≠ e.1 := fun hc => by rw [hc, ha] at hl; cases hl
              exact Or.inr ⟨h11, hl⟩
            · exact Or.inl ⟨hmem, rfl⟩
          · have hl := (h1 id g).mp hmem
            have h11 : id ≠ e.1 := fun hc => by rw [hc, ha] at hl; cases hl
            exact Or.inr ⟨h11, hl⟩
        · rintro (⟨hid, hg⟩ | ⟨hid, hl⟩)
          · subst hid
            subst hg
            exact Or.inl ⟨rfl, by simp⟩
          · have hmem := (h1 id g).mpr hl
            by_cases hgg : g = gb
            · subst hgg
              exact Or.inl ⟨rfl, by simp [hmem]⟩
            · exact Or.inr ⟨hgg, hmem⟩
      · intro g hg
        have hne : g ≠ gb := by omega
        rw [Function.update_noteq hne]
        exact h2 _ hg
      · intro id g hg
        rw [update_linkDict_some] at hg
        rcases hg with ⟨_, hg⟩ | ⟨_, hg⟩
        · omega
        · exact h3 _ _ hg
  · -- e.1 already assigned
    rw [processEdge_left ha]
    have halt := h3 _ _ ha
    have hb2 : ∀ g2, st.linkDict e.2 = some g2 → g2 = ga := by
      intro g2 hg2
      by_contra hne
      rw [splitEdgeB, ha, hg2] at hsplit
      simp only [bne_eq_false_iff_eq] at hsplit
      exact hne hsplit.symm
    refine ⟨?_, ?_, ?_⟩ <;> dsimp only
    · intro id g
      rw [mem_update_groupDict, update_linkDict_some]
      constructor
      · rintro (⟨hg, hmem⟩ | ⟨hg, hmem⟩)
        · subst hg
          simp only [Finset.mem_union, Finset.mem_singleton] at hmem
          rcases hmem with hmem | hmem
          · have hl := (h1 id g).mp hmem
            by_cases hid2 : id = e.2
            · exact Or.inl ⟨hid2, rfl⟩
            · exact Or.inr ⟨hid2, hl⟩
          · exact Or.inl ⟨hmem, rfl⟩
        · have hl := (h1 id g).mp hmem
          have h22 : id ≠ e.2 := by
            intro hc
            rw [hc] at hl
            exact hg (hb2 _ hl)
          exact Or.inr ⟨h22, hl⟩
      · rintro (⟨hid, hg⟩ | ⟨hid, hl⟩)
        · subst hid
          subst hg
          exact Or.inl ⟨rfl, by simp⟩
        · have hmem := (h1 id g).mpr hl
          by_cases hgg : g = ga
          · subst hgg
            exact Or.inl ⟨rfl, by simp [hmem]⟩
          · exact Or.inr ⟨hgg, hmem⟩
    · intro g hg
      have hne : g ≠ ga := by omega
      rw [Function.update_noteq hne]
      exact h2 _ hg
    · intro id g hg
      rw [update_linkDict_some] at hg
      rcases hg with ⟨_, hg⟩ | ⟨_, hg⟩
      · omega
      · exact h3 _ _ hg

theorem invS_foldl {cfg : LinksConfig} :
    ∀ (es : List (Nat × Nat)) (st : LinkState), InvS st →
      noSplitFromB cfg st es = true → InvS (es.foldl (step cfg) st)
  | [], _, h, _ => h
  | e :: es, st, h, hns => by
      rw [noSplitFromB, Bool.and_eq_true] at hns
      obtain ⟨hhead, htail⟩ := hns
      refine invS_foldl es _ ?_ htail
      cases hk : keepEdge cfg e
      · rwa [step_not_kept hk]
      · rw [step_kept hk]
        refine invS_processEdge e ?_ h
        rw [hk] at hhead
        simpa using hhead

/-! ### Which ids get assigned -/

theorem step_linkDict_ne_none {cfg : LinksConfig} {st : LinkState}
    {e : Nat × Nat} {id : Nat} :
    ((step cfg st e).linkDict id ≠ none) ↔
      (st.linkDict id ≠ none ∨
        (keepEdge cfg e = true ∧ (e.1 = id ∨ e.2 = id))) := by
  cases hk : keepEdge cfg e
  · rw [step_not_kept hk]
    simp
  · rw [step_kept hk]
    rcases ha : st.linkDict e.1 with _ | ga
    · rcases hb : st.linkDict e.2 with _ | gb
      · rw [processEdge_fresh ha hb]
        dsimp only
        rw [Function.update_apply]
        by_cases hid2 : id = e.2
        · subst hid2
          simp
        · rw [if_neg hid2, Function.update_apply]
          by_cases hid1 : id = e.1
          · subst hid1
            simp
          · rw [if_neg hid1]
            constructor
            · exact fun h => Or.inl h
            · rintro (h | ⟨_, h | h⟩)
              · exact h
              · exact absurd h.symm hid1
              · exact absurd h.symm hid2
      · rw [processEdge_right ha hb]
        dsimp only
        rw [Function.update_apply]
        by_cases hid1 : id = e.1
        · subst hid1
          simp
        · rw [if_neg hid1]
          constructor
          · exact fun h => Or.inl h
          · rintro (h | ⟨_, h | h⟩)
            · exact h
            · exact absurd h.symm hid1
            · rw [← h, hb]
              simp
    · rw [processEdge_left ha]
      dsimp only
      rw [Function.update_apply]
      by_cases hid2 : id = e.2
      · subst hid2
        simp
      · rw [if_neg hid2]
        constructor
        · exact fun h => Or.inl h
        · rintro (h | ⟨_, h | h⟩)
          · exact h
          · rw [← h, ha]
            simp
          · exact absurd h.symm hid2

theorem foldl_linkDict_ne_none {cfg : LinksConfig} :
    ∀ (es : List (Nat × Nat)) (st : LinkState) (id : Nat),
      ((es.foldl (step cfg) st).linkDict id ≠ none) ↔
        (st.linkDict id ≠ none ∨ seenInB cfg es id = true)
  | [], st, id => by simp [seenInB]
  | e :: es, st, id => by
      rw [List.foldl_cons, foldl_linkDict_ne_none es _ id, step_linkDict_ne_none]
      simp only [seenInB, List.any_cons, Bool.or_eq_true, Bool.and_eq_true,
        beq_iff_eq]
      tauto

theorem seenInB_mentionedB {cfg : LinksConfig} {es : List (Nat × Nat)} {id : Nat}
    (h : seenInB cfg es id = true) : mentionedB es id = true := by
  rw [seenInB, List.any_eq_true] at h
  obtain ⟨e, he, hm⟩ := h
  rw [Bool.and_eq_true] at hm
  rw [mentionedB, List.any_eq_true]
  exact ⟨e, he, hm.2⟩

/-! ### Group sizes -/

theorem invCard_init : InvCard initLinkState := by
  intro g hg
  simp [initLinkState] at hg

theorem invCard_processEdge {st : LinkState} {e : Nat × Nat} (hne : e.1 ≠ e.2)
    (hB : InvB st) (hC : InvCard st) : InvCard (processEdge st e) := by
  obtain ⟨h1, h2, _⟩ := hB
  rcases ha : st.linkDict e.1 with _ | ga
  · rcases hb : st.linkDict e.2 with _ | gb
    · rw [processEdge_fresh ha hb]
      intro g hg
      dsimp only at hg ⊢
      by_cases hgn : g = st.nodes
      · subst hgn
        rw [Function.update_same, h2 _ le_rfl, Finset.empty_union]
        exact le_of_eq (Finset.card_pair (Ne.symm hne)).symm
      · rw [Function.update_noteq hgn]
        exact hC _ (by omega)
    · rw [processEdge_right ha hb]
      intro g hg
      dsimp only at hg ⊢
      by_cases hgg : g = gb
      · subst hgg
        rw [Function.update_same]
        exact le_trans (hC _ (h1 _ _ hb).1)
          (Finset.card_le_card Finset.subset_union_left)
      · rw [Function.update_noteq hgg]
        exact hC _ hg
  · rw [processEdge_left ha]
    intro g hg
    dsimp only at hg ⊢
    by_cases hgg : g = ga
    · subst hgg
      rw [Function.update_same]
      exact le_trans (hC _ (h1 _ _ ha).1)
        (Finset.card_le_card Finset.subset_union_left)
    · rw [Function.update_noteq hgg]
      exact hC _ hg

theorem invCard_foldl {cfg : LinksConfig} :
    ∀ (es : List (Nat × Nat)) (st : LinkState), (∀ e ∈ es, e.1 ≠ e.2) →
      InvB st → InvCard st → InvCard (es.foldl (step cfg) st)
  | [], _, _, _, hC => hC
  | e :: es, st, hloop, hB, hC => by
      refine invCard_foldl es _
        (fun x hx => hloop x (List.mem_cons_of_mem _ hx)) (invB_step _ hB) ?_
      cases hk : keepEdge cfg e
      · rwa [step_not_kept hk]
      · rw [step_kept hk]
        exact invCard_processEdge (hloop e (List.mem_cons_self _ _)) hB hC

/-! ## Claims about the link graph builder -/

/-- **C1.** For every link edge `(a, b)` that passes the configured inclusion
filter and arrives when the builder is in the state reached after any prefix
of edges: if `a` is already assigned to group `g`, then `b` is added to `g`'s
member set and `link_dict[b]` is set to `g` (all else unchanged); else if `b`
is already assigned to group `g`, then `a` is added to `g`'s member set and
`link_dict[a]` is set to `g`; otherwise the fresh group id `nodes` (counter
starting at 0, incremented here) is allocated with member set `{a, b}` and
both `a` and `b` are assigned to it. -/
theorem links_setter_edge_update (cfg : LinksConfig) (es : List (Nat × Nat))
    (st : LinkState) (hst : st = buildLinks cfg es) (a b : Nat)
    (hk : keepEdge cfg (a, b) = true) :
    (∀ g, st.linkDict a = some g →
        (step cfg st (a, b)).groupDict g = st.groupDict g ∪ {b} ∧
        (step cfg st (a, b)).linkDict b = some g ∧
        (∀ g', g' ≠ g → (step cfg st (a, b)).groupDict g' = st.groupDict g') ∧
        (∀ x, x ≠ b → (step cfg st (a, b)).linkDict x = st.linkDict x) ∧
        (step cfg st (a, b)).nodes = st.nodes) ∧
    (st.linkDict a = none → ∀ g, st.linkDict b = some g →
        (step cfg st (a, b)).groupDict g = st.groupDict g ∪ {a} ∧
        (step cfg st (a, b)).linkDict a = some g ∧
        (∀ g', g' ≠ g → (step cfg st (a, b)).groupDict g' = st.groupDict g') ∧
        (∀ x, x ≠ a → (step cfg st (a, b)).linkDict x = st.linkDict x) ∧
        (step cfg st (a, b)).nodes = st.nodes) ∧
    (st.linkDict a = none → st.linkDict b = none →
        (step cfg st (a, b)).groupDict st.nodes = {a, b} ∧
        (step cfg st (a, b)).linkDict a = some st.nodes ∧
        (step cfg st (a, b)).linkDict b = some st.nodes ∧
        (∀ g', g' ≠ st.nodes → (step cfg st (a, b)).groupDict g' = st.groupDict g') ∧
        (∀ x, x ≠ a → x ≠ b → (step cfg st (a, b)).linkDict x = st.linkDict x) ∧
        (step cfg st (a, b)).nodes = st.nodes + 1) := by
  have hclean : ∀ g, st.nodes ≤ g → st.groupDict g = ∅ := by
    rw [hst]
    exact (invB_build cfg es).2.1
  refine ⟨?_, ?_, ?_⟩
  · intro g hg
    rw [step_kept hk, processEdge_left hg]
    dsimp only
    refine ⟨Function.update_same _ _ _, Function.update_same _ _ _, ?_, ?_, rfl⟩
    · intro g' hg'
      exact Function.update_noteq hg' _ _
    · intro x hx
      exact Function.update_noteq hx _ _
  · intro ha g hg
    rw [step_kept hk, processEdge_right ha hg]
    dsimp only
    refine ⟨Function.update_same _ _ _, Function.update_same _ _ _, ?_, ?_, rfl⟩
    · intro g' hg'
      exact Function.update_noteq hg' _ _
    · intro x hx
      exact Function.update_noteq hx _ _
  · intro ha hb
    rw [step_kept hk, processEdge_fresh ha hb]
    dsimp only
    refine ⟨?_, ?_, Function.update_same _ _ _, ?_, ?_, rfl⟩
    · rw [Function.update_same, hclean _ le_rfl, Finset.empty_union]
      exact Finset.pair_comm b a
    · by_cases hab : a = b
      · rw [hab]
        exact Function.update_same _ _ _
      · rw [Function.update_noteq (fun hc => hab hc) _ _]
        exact Function.update_same _ _ _
    · intro g' hg'
      exact Function.update_noteq hg' _ _
    · intro x hxa hxb
      rw [Function.update_noteq hxb _ _, Function.update_noteq hxa _ _]

/-- Witness for C1, third branch: from the empty stream, the kept edge
`(1, 2)` allocates group 0 with member set `{1, 2}`. -/
theorem links_setter_edge_update_witness :
    (step noFilter (buildLinks noFilter []) (1, 2)).groupDict 0 = {1, 2} :=
  ((links_setter_edge_update noFilter [] (buildLinks noFilter []) rfl 1 2
      (by decide)).2.2 (by decide) (by decide)).1

/-- **C2** is false as stated: after the edge stream (1,2), (3,4), (1,3) the
builder holds the two groups `{1, 2, 3}` and `{3, 4}`, and sentence id 3 is
simultaneously a member of both member sets. -/
theorem id_in_two_groups_counterexample :
    (buildLinks noFilter [(1, 2), (3, 4), (1, 3)]).groupsList =
      [({1, 2, 3} : Finset Nat), ({3, 4} : Finset Nat)] ∧
    3 ∈ (buildLinks noFilter [(1, 2), (3, 4), (1, 3)]).groupDict 0 ∧
    3 ∈ (buildLinks noFilter [(1, 2), (3, 4), (1, 3)]).groupDict 1 ∧
    (buildLinks noFilter [(1, 2), (3, 4), (1, 3)]).groupDict 0 ≠
      (buildLinks noFilter [(1, 2), (3, 4), (1, 3)]).groupDict 1 := by
  decide

/-- **C2 amended.** Every SentenceID that occurs in any group's member set is
assigned (via `link_dict`) to exactly one GroupID, and is a member of that
assigned group's member set; it may however linger in the member sets of
groups it was later reassigned away from. -/
theorem member_assigned_unique_group (cfg : LinksConfig) (es : List (Nat × Nat))
    (id g : Nat) (h : id ∈ (buildLinks cfg es).groupDict g) :
    ∃! g', (buildLinks cfg es).linkDict id = some g' ∧
      id ∈ (buildLinks cfg es).groupDict g' := by
  obtain ⟨h1, h2, h3⟩ := invB_build cfg es
  have hne := h3 _ _ h
  rcases hl : (buildLinks cfg es).linkDict id with _ | g'
  · exact absurd hl hne
  · refine ⟨g', ⟨rfl, (h1 _ _ hl).2⟩, ?_⟩
    rintro y ⟨hy, _⟩
    injection hy with hy
    exact hy.symm

/-- Witness for the amended C2 at the concrete stream (1,2), (3,4), (1,3),
member 3 of group 1. -/
theorem member_assigned_unique_group_witness :
    ∃! g', (buildLinks noFilter [(1, 2), (3, 4), (1, 3)]).linkDict 3 = some g' ∧
      3 ∈ (buildLinks noFilter [(1, 2), (3, 4), (1, 3)]).groupDict g' :=
  member_assigned_unique_group noFilter [(1, 2), (3, 4), (1, 3)] 3 1 (by decide)

/-- **C3.** For edge streams in which no kept edge ever arrives with its two
endpoints already assigned to two different groups (each sentence's edges
form a single contiguous chain), the built groups are pairwise disjoint and
cover exactly the ids seen in kept edges; `group id` answers
`.ok` with the same member set for every member `id` of a group; an id absent
from all edges gets `InvalidIDError`; and the concrete chain
(6381,156245), (156245,258289), (258289,817971) produces exactly the single
group `{6381, 156245, 258289, 817971}`, returned for both 6381 and 817971. -/
theorem chain_partition_and_lookup (cfg : LinksConfig) (es : List (Nat × Nat))
    (hns : noSplitFromB cfg initLinkState es = true) :
    (∀ g1 g2, g1 ≠ g2 →
        Disjoint ((buildLinks cfg es).groupDict g1) ((buildLinks cfg es).groupDict g2)) ∧
    (∀ id, seenInB cfg es id = true ↔ ∃ g, id ∈ (buildLinks cfg es).groupDict g) ∧
    (∀ id g, id ∈ (buildLinks cfg es).groupDict g →
        (buildLinks cfg es).group id = .ok ((buildLinks cfg es).groupDict g)) ∧
    (∀ id, mentionedB es id = false →
        (buildLinks cfg es).group id = .error "InvalidIDError") ∧
    ((buildLinks noFilter [(6381, 156245), (156245, 258289), (258289, 817971)]).groupsList =
        [({6381, 156245, 258289, 817971} : Finset Nat)] ∧
      (buildLinks noFilter [(6381, 156245), (156245, 258289), (258289, 817971)]).group 6381 =
        .ok {6381, 156245, 258289, 817971} ∧
      (buildLinks noFilter [(6381, 156245), (156245, 258289), (258289, 817971)]).group 817971 =
        .ok {6381, 156245, 258289, 817971}) := by
  obtain ⟨h1, h2, h3⟩ : InvS (buildLinks cfg es) := invS_foldl es _ invS_init hns
  have hcov : ∀ id, ((buildLinks cfg es).linkDict id ≠ none) ↔
      seenInB cfg es id = true := by
    intro id
    have h := @foldl_linkDict_ne_none cfg es initLinkState id
    simpa [initLinkState] using h
  refine ⟨?_, ?_, ?_, ?_, by decide⟩
  · intro g1 g2 hne
    rw [Finset.disjoint_left]
    intro x hx1 hx2
    have e1 := (h1 x g1).mp hx1
    have e2 := (h1 x g2).mp hx2
    rw [e1] at e2
    cases e2
    exact hne rfl
  · intro id
    constructor
    · intro hseen
      have := (hcov id).mpr hseen
      rcases hl : (buildLinks cfg es).linkDict id with _ | g
      · exact absurd hl this
      · exact ⟨g, (h1 id g).mpr hl⟩
    · rintro ⟨g, hmem⟩
      refine (hcov id).mp ?_
      rw [(h1 id g).mp hmem]
      simp
  · intro id g hmem
    have hl := (h1 id g).mp hmem
    simp [LinkState.group, hl]
  · intro id hm
    have hseen : ¬ seenInB cfg es id = true := by
      intro hs
      rw [seenInB_mentionedB hs] at hm
      cases hm
    have hnone : (buildLinks cfg es).linkDict id = none := by
      by_contra hc
      exact hseen ((hcov id).mp hc)
    simp [LinkState.group, hnone]

/-- Witness for C3 at the concrete chain stream. -/
theorem chain_partition_and_lookup_witness :
    (buildLinks noFilter [(6381, 156245), (156245, 258289), (258289, 817971)]).group 817971 =
      .ok {6381, 156245, 258289, 817971} :=
  (chain_partition_and_lookup noFilter
      [(6381, 156245), (156245, 258289), (258289, 817971)] (by decide)).2.2.2.2.2.2

/-- **C8** is false as stated: the self-loop edge (5, 5) produces the
singleton group `{5}`, which `group 5` returns and `groups` lists. -/
theorem selfloop_singleton_group_counterexample :
    (buildLinks noFilter [(5, 5)]).group 5 = .ok {5} ∧
    (buildLinks noFilter [(5, 5)]).groupsList = [({5} : Finset Nat)] ∧
    ({5} : Finset Nat).card = 1 := by decide

/-- **C8 amended.** For every edge stream containing no self-loop edge
`(a, a)`, every group produced by the builder — every entry of `groups` and
every set returned by `group id` — contains at least two sentence ids. -/
theorem groups_card_ge_two (cfg : LinksConfig) (es : List (Nat × Nat))
    (hloop : ∀ e ∈ es, e.1 ≠ e.2) :
    (∀ s ∈ (buildLinks cfg es).groupsList, 2 ≤ s.card) ∧
    (∀ id s, (buildLinks cfg es).group id = .ok s → 2 ≤ s.card) := by
  have hC : InvCard (buildLinks cfg es) := invCard_foldl es _ hloop invB_init invCard_init
  constructor
  · intro s hs
    rw [LinkState.groupsList] at hs
    simp only [List.mem_map, List.mem_range] at hs
    obtain ⟨g, hg, rfl⟩ := hs
    exact hC _ hg
  · intro id s h
    rcases hl : (buildLinks cfg es).linkDict id with _ | g
    · simp [LinkState.group, hl] at h
    · simp only [LinkState.group, hl] at h
      cases h
      exact hC _ ((invB_build cfg es).1 _ _ hl).1

/-- Witness for the amended C8 at the single edge (1, 2). -/
theorem groups_card_ge_two_witness : 2 ≤ ({1, 2} : Finset Nat).card :=
  (groups_card_ge_two noFilter [(1, 2)] (by decide)).2 1 {1, 2} (by decide)

/-! ## Lemmas about the token parser -/

theorem isOk_map {ε α β : Type} (f : α → β) (x : Except ε α) :
    (x.map f).isOk = x.isOk := by
  cases x <;> rfl

theorem map_eq_error_iff {ε α β : Type} (f : α → β) (x : Except ε α) (e : ε) :
    (x.map f = .error e) ↔ x = .error e := by
  cases x <;> simp [Except.map]

theorem wordReMatch_eq_none_iff (w : List Char) :
    (wordReMatch w = none) ↔ headFailsB w = true := by
  cases w with
  | nil => simp [wordReMatch, headFailsB]
  | cons c rest =>
      cases hc : headChar c <;>
        simp [wordReMatch, headFailsB, List.takeWhile_cons, hc]

theorem parseWords_spec (text : String) :
    ∀ ws : List (List Char),
      (((parseWords text ws).isOk = true) ↔
        ∀ t ∈ ws, ¬t.isEmpty = true → headFailsB t = false) ∧
      (∀ t s, parseWords text ws = .error (t, s) →
        s = text ∧ ∃ u ∈ ws, t = String.mk u ∧ ¬u.isEmpty = true ∧ headFailsB u = true)
  | [] => by
      constructor
      · simp only [parseWords]
        constructor
        · intro _ t ht
          cases ht
        · intro _
          rfl
      · intro t s h
        simp [parseWords] at h
  | w :: ws => by
      obtain ⟨ih1, ih2⟩ := parseWords_spec text ws
      by_cases hw : w.isEmpty = true
      · constructor
        · rw [parseWords, if_pos hw, ih1]
          constructor
          · intro h t ht hne
            rcases List.mem_cons.mp ht with rfl | ht
            · exact absurd hw hne
            · exact h t ht hne
          · intro h t ht hne
            exact h t (List.mem_cons_of_mem _ ht) hne
        · intro t s h
          rw [parseWords, if_pos hw] at h
          obtain ⟨hs, u, hu, rest⟩ := ih2 t s h
          exact ⟨hs, u, List.mem_cons_of_mem _ hu, rest⟩
      · rcases hm : wordReMatch w with _ | p
        · have hf : headFailsB w = true := (wordReMatch_eq_none_iff w).mp hm
          constructor
          · rw [parseWords, if_neg hw, hm]
            constructor
            · intro h
              cases h
            · intro h
              have := h w (List.mem_cons_self _ _) hw
              rw [hf] at this
              cases this
          · intro t s h
            rw [parseWords, if_neg hw, hm] at h
            rw [Except.error.injEq, Prod.mk.injEq] at h
            exact ⟨h.2.symm, w, List.mem_cons_self _ _, h.1.symm, hw, hf⟩
        · have hf : headFailsB w = false := by
            cases hfc : headFailsB w
            · rfl
            · rw [(wordReMatch_eq_none_iff w).mpr hfc] at hm
              cases hm
          constructor
          · rw [parseWords, if_neg hw, hm, isOk_map, ih1]
            constructor
            · intro h t ht hne
              rcases List.mem_cons.mp ht with rfl | ht
              · exact hf
              · exact h t ht hne
            · intro h t ht hne
              exact h t (List.mem_cons_of_mem _ ht) hne
          · intro t s h
            rw [parseWords, if_neg hw, hm, map_eq_error_iff] at h
            obtain ⟨hs, u, hu, rest⟩ := ih2 t s h
            exact ⟨hs, u, List.mem_cons_of_mem _ hu, rest⟩

/-! ## Lemmas about reading resolution -/

theorem adjustWord_cases (edict : Edict) (w : TanakaWord) :
    adjustWord edict w = w ∨
      (w.reading = none ∧ ∃ c, c ≠ some w.headword ∧
        adjustWord edict w = { w with reading := c }) := by
  unfold adjustWord
  rcases he : edict w.headword with _ | readings
  · exact Or.inl rfl
  · rcases hr : w.reading with _ | r
    · dsimp only
      by_cases hc : candidateReading readings w.sense = some w.headword
      · rw [if_pos hc]
        exact Or.inl rfl
      · rw [if_neg hc]
        exact Or.inr ⟨rfl, _, hc, rfl⟩
    · exact Or.inl rfl

/-! ## Claims about the word parser, reading resolution and readers -/

/-- **C5** is false as stated: the non-empty token `a[1](b)` deviates from
the fixed field order (its reading group follows its sense group, so it
has no full match against the grammar), yet parsing raises no error: the
unanchored `word_re.match` accepts the prefix `a[1]` and silently discards
`(b)`. -/
theorem deviating_token_no_error_counterexample :
    specTokenFullMatchB "a[1](b)" = false ∧
    parse_sentence "a[1](b)" = .ok [⟨"a", none, some 1, none, false⟩] := by
  decide

/-- **C5 amended.** Parsing an annotated sentence fails — with the
grammar error carrying the offending token and the full sentence text —
exactly when some non-empty whitespace-delimited token's mandatory
headword portion fails to match, i.e. the token starts with one of
`(`, `[`, `{`, `|`, `~`. A non-empty token deviating from the field order
after a non-empty headword prefix is accepted by its longest matching
prefix, the rest silently ignored, and zero-length tokens are skipped
without error. -/
theorem parse_sentence_error_iff (text : String) :
    (((parse_sentence text).isOk = true) ↔
      ∀ t ∈ splitChars text.data, ¬t.isEmpty = true → headFailsB t = false) ∧
    (∀ t s, parse_sentence text = .error (t, s) →
      s = text ∧ ∃ u ∈ splitChars text.data,
        t = String.mk u ∧ ¬u.isEmpty = true ∧ headFailsB u = true) :=
  parseWords_spec text (splitChars text.data)

/-- Witness for the amended C5: the sentence `(x a` fails on its first
token `(x`, whose first character `(` is excluded from the headword class. -/
theorem parse_sentence_error_iff_witness :
    ("(x a" : String) = "(x a" ∧ ∃ u ∈ splitChars ("(x a" : String).data,
      ("(x" : String) = String.mk u ∧ ¬u.isEmpty = true ∧ headFailsB u = true :=
  (parse_sentence_error_iff "(x a").2 "(x" "(x a" (by decide)

/-- **C4** (code bug): the grammar `[\d]+` admits `sense = 0`, which is
present and outside `1 ≤ sense ≤ len(readings)`; with the two distinct
readings `r1`, `r2` the claim requires the reading to stay unset, but the
code's test `word.sense <= len(ee.readings)` has no lower bound, so
`readings[0 - 1]` selects the *last* reading by Python negative indexing
and assigns it. -/
theorem sense_zero_selects_last_reading :
    (["r1", "r2"] : List String).dedup.length ≠ 1 ∧
    adjust_details (some (fun s => if s == "X" then some ["r1", "r2"] else none))
        [⟨"X", none, some 0, none, false⟩] =
      [⟨"X", some "r2", some 0, none, false⟩] := by
  decide

/-- **C7.** Reading resolution never touches a token whose reading is
already present, only fills a reading whose value differs from the
headword, and is the identity when no dictionary is configured. -/
theorem reading_resolution_invariants :
    (∀ sentence, adjust_details none sentence = sentence) ∧
    (∀ (edict : Edict) (w : TanakaWord) (r : String), w.reading = some r →
        adjustWord edict w = w) ∧
    (∀ (edict : Edict) (w : TanakaWord) (r : String), w.reading = none →
        (adjustWord edict w).reading = some r → r ≠ w.headword) := by
  refine ⟨fun _ => rfl, ?_, ?_⟩
  · intro edict w r h
    rcases adjustWord_cases edict w with hc | ⟨hn, _, _, _⟩
    · exact hc
    · rw [h] at hn
      cases hn
  · intro edict w r hnone hres
    rcases adjustWord_cases edict w with hc | ⟨_, c, hc, heq⟩
    · rw [hc, hnone] at hres
      cases hres
    · rw [heq] at hres
      dsimp only at hres
      rw [hres] at hc
      intro hcon
      rw [hcon] at hc
      exact hc rfl

/-- Witness for C7: a token with a reading already present is returned
unchanged. -/
theorem reading_resolution_invariants_witness :
    adjustWord (fun s => if s == "X" then some ["r1", "r2"] else none)
        ⟨"X", some "y", none, none, false⟩ =
      ⟨"X", some "y", none, none, false⟩ :=
  reading_resolution_invariants.2.1
    (fun s => if s == "X" then some ["r1", "r2"] else none)
    ⟨"X", some "y", none, none, false⟩ "y" rfl

/-- **C6** is false as stated: after a well-formed 3-column first row, a
later row with 4 columns (neither 3 nor 6) does not fail the load with
`InvalidFileError`: the extra column is silently ignored and the row's
sentence is loaded and queryable. -/
theorem later_row_column_count_counterexample :
    ([("2" : String), "jpn", "b", "x"].length = 4) ∧
    (loadSentences (some ["jpn", "eng"])
        [["1", "jpn", "a"], ["2", "jpn", "b", "x"]]).isOk = true ∧
    (loadSentences (some ["jpn", "eng"])
        [["1", "jpn", "a"], ["2", "jpn", "b", "x"]]).map
      (fun st => st.sentenceDict 2) = .ok (some "b") := by
  refine ⟨rfl, rfl, ?_⟩
  decide

/-- **C6 amended.** The column count is validated only on the *first* row:
a first row with neither 3 nor 6 columns fails the load with
`InvalidFileError`. Later rows are not validated: extra columns are
ignored, and a too-short later row fails with a `ValueError` from tuple
unpacking, not with `InvalidFileError`. -/
theorem first_row_column_check (languages : Option (List String))
    (r0 : List String) (rest : List (List String))
    (h3 : r0.length ≠ 3) (h6 : r0.length ≠ 6) :
    loadSentences languages (r0 :: rest) = .error .invalidFile := by
  rw [loadSentences, if_neg h3, if_neg h6]

/-- Witness for the amended C6: a 2-column first row is rejected. -/
theorem first_row_column_check_witness :
    loadSentences (some ["jpn"]) [["1", "jpn"]] = .error .invalidFile :=
  first_row_column_check (some ["jpn"]) ["1", "jpn"] [] (by decide) (by decide)

/-- **C9** (code bug): the `sentence_ids` allow-list accepted by
`TatoebaIndexReader.__init__` is stored but never consulted by the
`jpn_indices` setter: the loaded index is independent of the allow-list,
and a row whose sentence id is outside the allow-list (id 2 with allow-list
`{1}`) is loaded, with both its linked meaning and its word sequence
queryable. -/
theorem sentence_id_subset_ignored :
    (∀ (edict : Option Edict) (s1 s2 : Option (Finset Nat))
        (rows : List (Nat × Nat × String)),
        loadJpnIndices edict s1 rows = loadJpnIndices edict s2 rows) ∧
    ((loadJpnIndices none (some {1}) [(2, 100, "a")]).map
        (fun st => st.linkDict 2) = .ok (some 100)) ∧
    ((loadJpnIndices none (some {1}) [(2, 100, "a")]).map
        (fun st => st.sentenceDict 2) =
      .ok (some [⟨"a", none, none, none, false⟩])) :=
  ⟨fun _ _ _ _ => rfl, by decide, by decide⟩

/-- **C10** is false as stated: two words agreeing on headword, reading,
sense and example, one with `display` unset and the other with `display`
equal to its headword, are equal under `__eq__`, but their `__repr__`
strings differ: the raw `display` field, not the resolved one, drives
rendering. -/
theorem display_render_counterexample :
    TanakaWord.eq ⟨"a", none, none, none, false⟩
        ⟨"a", none, none, some "a", false⟩ = true ∧
    TanakaWord.render ⟨"a", none, none, none, false⟩ = "a" ∧
    TanakaWord.render ⟨"a", none, none, some "a", false⟩ = "a\x7ba\x7d" ∧
    TanakaWord.render ⟨"a", none, none, none, false⟩ ≠
      TanakaWord.render ⟨"a", none, none, some "a", false⟩ := by
  decide

/-- **C10 amended.** Such a pair of words is always equal under `__eq__`
(resolved display is compared), but whenever the headword is non-empty
their rendered forms differ — the word with `display` set renders an extra
braced display segment. -/
theorem display_resolution_eq_render (hw : String) (r : Option String)
    (s : Option Nat) (e : Bool) :
    TanakaWord.eq ⟨hw, r, s, none, e⟩ ⟨hw, r, s, some hw, e⟩ = true ∧
    (hw ≠ "" →
      TanakaWord.render ⟨hw, r, s, some hw, e⟩ ≠
        TanakaWord.render ⟨hw, r, s, none, e⟩) := by
  constructor
  · simp [TanakaWord.eq, TanakaWord.resolve_display]
  · intro hhw heq
    have hwpos : 0 < hw.length := by
      cases hw with
      | mk data =>
          cases data with
          | nil => exact absurd rfl hhw
          | cons c cs => simp [String.length]
    have hlen := congrArg String.length heq
    cases e <;>
      simp [TanakaWord.render, pyTruthyOptStr, hhw, String.length_append] at hlen <;>
      omega

/-- Witness for the amended C10 at headword `a`. -/
theorem display_resolution_eq_render_witness :
    TanakaWord.eq ⟨"a", none, some 2, none, true⟩
        ⟨"a", none, some 2, some "a", true⟩ = true ∧
    TanakaWord.render ⟨"a", none, some 2, some "a", true⟩ ≠
      TanakaWord.render ⟨"a", none, some 2, none, true⟩ :=
  ⟨(display_resolution_eq_render "a" none (some 2) true).1,
   (display_resolution_eq_render "a" none (some 2) true).2 (by decide)⟩

end Tatoeba
